import Mathlib

/-!
Verification development for the call-center analytics dashboard.

The definitions below are shallow embeddings of the client-side data
reshaping functions of the repository: the pagination window calculator
of the call table, the chart data shaping of the analytics view
(daily series, outcome pie data, hourly densification), the dashboard's
filter/page state machine, and the minutes rounding of the overview
cards.  JavaScript numbers that only ever hold non-negative integers
(page indices, hours, counts) are modelled as `Nat`; monetary amounts
and fractional minutes as `Rat`; strings as Lean `String`.
-/

namespace CallCenter

/-- An entry of the pagination control: either a concrete page number or
the ellipsis marker (the string literal used as gap placeholder in the
source). -/
inductive PageEntry where
  | page (n : Nat)
  | ellipsis
  deriving DecidableEq, Repr

/-- The ascending list `[lo, lo+1, ..., hi]` (empty when `hi < lo`), as
produced by a `for` loop running `i` from `lo` to `hi` inclusive and
pushing each `i`. -/
def pageRange (lo hi : Nat) : List Nat :=
  (List.range (hi + 1 - lo)).map (fun i => lo + i)

/-- Embedding of `getVisiblePages` from the call table component: given
the current page and the total page count, the ordered list of entries to
render in the pagination control.  `maxVisible` is the constant 7 of the
source; the three `for` loops are rendered with `pageRange`. -/
def getVisiblePages (currentPage totalPages : Nat) : List PageEntry :=
  let maxVisible := 7
  if totalPages ≤ maxVisible then
    (pageRange 1 totalPages).map PageEntry.page
  else if currentPage ≤ 4 then
    (pageRange 1 5).map PageEntry.page ++ [PageEntry.ellipsis, PageEntry.page totalPages]
  else if totalPages - 3 ≤ currentPage then
    [PageEntry.page 1, PageEntry.ellipsis] ++ (pageRange (totalPages - 4) totalPages).map PageEntry.page
  else
    [PageEntry.page 1, PageEntry.ellipsis]
      ++ (pageRange (currentPage - 1) (currentPage + 1)).map PageEntry.page
      ++ [PageEntry.ellipsis, PageEntry.page totalPages]

/-- The page numbers occurring in a pagination window, ellipsis markers
dropped, in display order. -/
def pageNumbers (l : List PageEntry) : List Nat :=
  l.filterMap (fun e => match e with | .page n => some n | .ellipsis => none)

theorem mem_pageRange {lo hi n : Nat} :
    n ∈ pageRange lo hi ↔ lo ≤ n ∧ n ≤ hi := by
  simp only [pageRange, List.mem_map, List.mem_range]
  constructor
  · rintro ⟨i, hi, rfl⟩
    omega
  · rintro ⟨h1, h2⟩
    exact ⟨n - lo, by omega, by omega⟩

theorem nodup_pageRange (lo hi : Nat) : (pageRange lo hi).Nodup :=
  (List.nodup_range _).map (fun a b h => by omega)

theorem length_pageRange (lo hi : Nat) :
    (pageRange lo hi).length = hi + 1 - lo := by
  simp [pageRange]

theorem pageNumbers_map_page (l : List Nat) :
    pageNumbers (l.map PageEntry.page) = l := by
  induction l with
  | nil => rfl
  | cons a l ih => simp [pageNumbers] at ih ⊢; exact ih

theorem pageRange_add_four (lo : Nat) :
    pageRange lo (lo + 4) = [lo, lo + 1, lo + 2, lo + 3, lo + 4] := by
  have h : lo + 4 + 1 - lo = 5 := by omega
  simp [pageRange, h, List.range_succ]

theorem pageRange_add_two (lo : Nat) :
    pageRange lo (lo + 2) = [lo, lo + 1, lo + 2] := by
  have h : lo + 2 + 1 - lo = 3 := by omega
  simp [pageRange, h, List.range_succ]

theorem visible_eq_small {c t : Nat} (ht : t ≤ 7) :
    getVisiblePages c t = (pageRange 1 t).map PageEntry.page := by
  simp [getVisiblePages, ht]

theorem visible_eq_nearStart {c t : Nat} (hc : c ≤ 4) (ht : 7 < t) :
    getVisiblePages c t =
      (pageRange 1 5).map PageEntry.page ++ [PageEntry.ellipsis, PageEntry.page t] := by
  rw [getVisiblePages]
  rw [if_neg (by omega), if_pos hc]

theorem visible_eq_nearEnd {c t : Nat} (hc : 4 < c) (ht : 7 < t) (hce : t - 3 ≤ c) :
    getVisiblePages c t =
      [PageEntry.page 1, PageEntry.ellipsis] ++ (pageRange (t - 4) t).map PageEntry.page := by
  rw [getVisiblePages]
  rw [if_neg (by omega), if_neg (by omega), if_pos hce]

theorem visible_eq_middle {c t : Nat} (hc : 4 < c) (ht : 7 < t) (hcm : c < t - 3) :
    getVisiblePages c t =
      [PageEntry.page 1, PageEntry.ellipsis]
        ++ (pageRange (c - 1) (c + 1)).map PageEntry.page
        ++ [PageEntry.ellipsis, PageEntry.page t] := by
  rw [getVisiblePages]
  rw [if_neg (by omega), if_neg (by omega), if_neg (by omega)]

theorem pageRange_nearEnd {t : Nat} (ht : 7 < t) :
    pageRange (t - 4) t = [t - 4, t - 3, t - 2, t - 1, t] := by
  have h := pageRange_add_four (t - 4)
  rw [show t - 4 + 4 = t from by omega] at h
  rw [h]
  simp only [List.cons.injEq, and_true, true_and]
  omega

theorem pageRange_middle {c : Nat} (hc : 4 < c) :
    pageRange (c - 1) (c + 1) = [c - 1, c, c + 1] := by
  have h := pageRange_add_two (c - 1)
  rw [show c - 1 + 2 = c + 1 from by omega] at h
  rw [h]
  simp only [List.cons.injEq, and_true, true_and]
  omega

/-- C1: for `totalPages ≤ 7` and any `currentPage ≥ 1`, the pagination
window is exactly the pages `1, 2, ..., totalPages` in ascending order
and contains no ellipsis marker. -/
theorem getVisiblePages_small (c t : Nat) (hc : 1 ≤ c) (ht : t ≤ 7) :
    getVisiblePages c t = (List.range t).map (fun i => PageEntry.page (i + 1)) ∧
      PageEntry.ellipsis ∉ getVisiblePages c t := by
  have hres := visible_eq_small (c := c) ht
  constructor
  · rw [hres]
    simp [pageRange, Nat.add_comm]
  · rw [hres]
    simp

/-- Witness for C1 at `currentPage = 1`, `totalPages = 3`. -/
theorem getVisiblePages_small_witness :
    getVisiblePages 1 3 = [PageEntry.page 1, PageEntry.page 2, PageEntry.page 3] ∧
      PageEntry.ellipsis ∉ getVisiblePages 1 3 := by
  have h := getVisiblePages_small 1 3 (by decide) (by decide)
  exact ⟨h.1.trans (by decide), h.2⟩

/-- C2: for `totalPages > 7` and `currentPage` in the near-start region
`1 ≤ currentPage ≤ 4`, the window is `[1, 2, 3, 4, 5, ellipsis, totalPages]`. -/
theorem getVisiblePages_nearStart (c t : Nat) (hc1 : 1 ≤ c) (hc : c ≤ 4) (ht : 7 < t) :
    getVisiblePages c t =
      [PageEntry.page 1, PageEntry.page 2, PageEntry.page 3, PageEntry.page 4,
        PageEntry.page 5, PageEntry.ellipsis, PageEntry.page t] := by
  rw [visible_eq_nearStart hc ht]
  rfl

/-- Witness for C2 at `currentPage = 2`, `totalPages = 9`. -/
theorem getVisiblePages_nearStart_witness :
    getVisiblePages 2 9 =
      [PageEntry.page 1, PageEntry.page 2, PageEntry.page 3, PageEntry.page 4,
        PageEntry.page 5, PageEntry.ellipsis, PageEntry.page 9] :=
  getVisiblePages_nearStart 2 9 (by decide) (by decide) (by decide)

/-- C3: for `totalPages > 7` and `currentPage` in the near-end region
(`currentPage ≥ totalPages - 3`, with `currentPage > 4` so the
near-start branch does not apply), the window is
`[1, ellipsis, totalPages-4, totalPages-3, totalPages-2, totalPages-1, totalPages]`. -/
theorem getVisiblePages_nearEnd (c t : Nat) (hc : 4 < c) (ht : 7 < t) (hce : t - 3 ≤ c) :
    getVisiblePages c t =
      [PageEntry.page 1, PageEntry.ellipsis, PageEntry.page (t - 4), PageEntry.page (t - 3),
        PageEntry.page (t - 2), PageEntry.page (t - 1), PageEntry.page t] := by
  rw [visible_eq_nearEnd hc ht hce, pageRange_nearEnd ht]
  rfl

/-- Witness for C3 at `currentPage = 8`, `totalPages = 10`. -/
theorem getVisiblePages_nearEnd_witness :
    getVisiblePages 8 10 =
      [PageEntry.page 1, PageEntry.ellipsis, PageEntry.page 6, PageEntry.page 7,
        PageEntry.page 8, PageEntry.page 9, PageEntry.page 10] :=
  getVisiblePages_nearEnd 8 10 (by decide) (by decide) (by decide)

/-- C4: for `totalPages > 7` and `currentPage` strictly between the
near-start and near-end regions (`4 < currentPage < totalPages - 3`),
the window is
`[1, ellipsis, currentPage-1, currentPage, currentPage+1, ellipsis, totalPages]`. -/
theorem getVisiblePages_middle (c t : Nat) (hc : 4 < c) (ht : 7 < t) (hcm : c < t - 3) :
    getVisiblePages c t =
      [PageEntry.page 1, PageEntry.ellipsis, PageEntry.page (c - 1), PageEntry.page c,
        PageEntry.page (c + 1), PageEntry.ellipsis, PageEntry.page t] := by
  rw [visible_eq_middle hc ht hcm, pageRange_middle hc]
  rfl

/-- Witness for C4: the middle-case example `totalPages = 20`,
`currentPage = 10` yields `[1, ellipsis, 9, 10, 11, ellipsis, 20]`. -/
theorem getVisiblePages_middle_witness :
    getVisiblePages 10 20 =
      [PageEntry.page 1, PageEntry.ellipsis, PageEntry.page 9, PageEntry.page 10,
        PageEntry.page 11, PageEntry.ellipsis, PageEntry.page 20] :=
  getVisiblePages_middle 10 20 (by decide) (by decide) (by decide)

/-- C5: for every `currentPage ≥ 1` and every `totalPages`, the window
has no duplicate page number, every numeric entry `n` in it satisfies
`1 ≤ n ≤ totalPages`, its length is at most 9 entries, and at
`totalPages = 0` it is empty. -/
theorem getVisiblePages_invariants (c t : Nat) (hc : 1 ≤ c) :
    (pageNumbers (getVisiblePages c t)).Nodup ∧
      (∀ n ∈ pageNumbers (getVisiblePages c t), 1 ≤ n ∧ n ≤ t) ∧
      (getVisiblePages c t).length ≤ 9 ∧
      (t = 0 → getVisiblePages c t = []) := by
  by_cases h1 : t ≤ 7
  · rw [visible_eq_small h1]
    refine ⟨?_, ?_, ?_, ?_⟩
    · rw [pageNumbers_map_page]
      exact nodup_pageRange 1 t
    · intro n hn
      rw [pageNumbers_map_page] at hn
      exact mem_pageRange.mp hn
    · rw [List.length_map, length_pageRange]
      omega
    · intro ht0
      subst ht0
      rfl
  · push_neg at h1
    by_cases h2 : c ≤ 4
    · rw [visible_eq_nearStart h2 h1]
      have h15 : pageRange 1 5 = [1, 2, 3, 4, 5] := by decide
      rw [h15]
      refine ⟨?_, ?_, ?_, ?_⟩
      · simp [pageNumbers]
        omega
      · intro n hn
        simp [pageNumbers] at hn
        omega
      · simp
      · omega
    · push_neg at h2
      by_cases h3 : t - 3 ≤ c
      · rw [visible_eq_nearEnd h2 h1 h3, pageRange_nearEnd h1]
        refine ⟨?_, ?_, ?_, ?_⟩
        · simp [pageNumbers]
          omega
        · intro n hn
          simp [pageNumbers] at hn
          omega
        · simp
        · omega
      · push_neg at h3
        rw [visible_eq_middle h2 h1 h3, pageRange_middle h2]
        refine ⟨?_, ?_, ?_, ?_⟩
        · simp [pageNumbers]
          omega
        · intro n hn
          simp [pageNumbers] at hn
          omega
        · simp
        · omega

/-- Witness for C5 at `currentPage = 6`, `totalPages = 12` (middle branch). -/
theorem getVisiblePages_invariants_witness :
    (pageNumbers (getVisiblePages 6 12)).Nodup ∧
      (∀ n ∈ pageNumbers (getVisiblePages 6 12), 1 ≤ n ∧ n ≤ 12) ∧
      (getVisiblePages 6 12).length ≤ 9 ∧
      (12 = 0 → getVisiblePages 6 12 = []) :=
  getVisiblePages_invariants 6 12 (by decide)

/-- A row of the hourly aggregate as returned by the backend. -/
structure HourlyRow where
  call_hour : Nat
  call_count : Nat
  deriving DecidableEq, Repr

/-- A point of the hourly bar chart. -/
structure HourlyPoint where
  hour : String
  calls : Nat
  deriving DecidableEq, Repr

/-- Embedding of the `hourlyData` transform of the charts component: for
each hour 0..23, look up the first fetched row with that hour and take
its count, defaulting to 0 when none matches; the label is the hour
followed by ":00". -/
def hourlyData (rows : List HourlyRow) : List HourlyPoint :=
  (List.range 24).map (fun hour =>
    match rows.find? (fun h => h.call_hour == hour) with
    | some hourCalls => { hour := toString hour ++ ":00", calls := hourCalls.call_count }
    | none => { hour := toString hour ++ ":00", calls := 0 })

/-- C6: for every input row list, the densified hourly series has
exactly 24 entries, the entry at index `h` is labelled with hour `h`
(hence hours appear 0..23 in ascending order), and it carries the count
of the first input row whose `call_hour` equals `h`, or 0 when no such
row exists. -/
theorem hourlyData_densifies (rows : List HourlyRow) (h : Nat) (hh : h < 24) :
    (hourlyData rows).length = 24 ∧
      (hourlyData rows)[h]? = some
        { hour := toString h ++ ":00"
          calls := ((rows.find? (fun r => r.call_hour == h)).map HourlyRow.call_count).getD 0 } := by
  constructor
  · simp [hourlyData]
  · rw [hourlyData, List.getElem?_map, List.getElem?_range hh]
    cases hfind : rows.find? (fun r => r.call_hour == h) <;> simp [hfind]

/-- Witness for C6 on the sparse input with a single row for hour 3 and
count 5: 24 entries, count 5 at hour 3, count 0 elsewhere (hour 7
checked). -/
theorem hourlyData_densifies_witness :
    (hourlyData [{ call_hour := 3, call_count := 5 }]).length = 24 ∧
      (hourlyData [{ call_hour := 3, call_count := 5 }])[3]? = some { hour := "3:00", calls := 5 } ∧
      (hourlyData [{ call_hour := 3, call_count := 5 }])[7]? = some { hour := "7:00", calls := 0 } := by
  have h3 := hourlyData_densifies [{ call_hour := 3, call_count := 5 }] 3 (by decide)
  have h7 := hourlyData_densifies [{ call_hour := 3, call_count := 5 }] 7 (by decide)
  exact ⟨h3.1, h3.2.trans (by decide), h7.2.trans (by decide)⟩

/-- A row of the outcome distribution aggregate. -/
structure OutcomeRow where
  outcome_name : String
  outcome_count : Nat
  deriving DecidableEq, Repr

/-- An entry of the pie chart series: full name, numeric value, and a
display label for space-constrained legends. -/
structure PieSlice where
  name : String
  value : Nat
  displayName : String
  deriving DecidableEq, Repr

/-- Embedding of the `pieData` transform of the charts component: each
outcome row becomes a slice carrying the full name, the count, and a
display label truncated to 12 characters plus "..." when the name
exceeds 12 characters. -/
def pieData (rows : List OutcomeRow) : List PieSlice :=
  rows.map (fun item =>
    { name := item.outcome_name
      value := item.outcome_count
      displayName :=
        if item.outcome_name.length > 12 then item.outcome_name.take 12 ++ "..."
        else item.outcome_name })

/-- C7: every slice of the pie series has its display label equal to its
full name when that name is at most 12 characters long, and equal to the
first 12 characters followed by "..." when it is longer. -/
theorem pieData_displayName (rows : List OutcomeRow) (s : PieSlice) (hs : s ∈ pieData rows) :
    (s.name.length ≤ 12 → s.displayName = s.name) ∧
      (12 < s.name.length → s.displayName = s.name.take 12 ++ "...") := by
  simp only [pieData, List.mem_map] at hs
  obtain ⟨item, -, rfl⟩ := hs
  dsimp only
  constructor
  · intro hle
    have hnot : ¬item.outcome_name.length > 12 := by omega
    simp [hnot]
  · intro hgt
    simp [hgt]

/-- Witness for C7: a 15-character name is truncated to its first 12
characters plus ellipsis, a 10-character name is unchanged. -/
theorem pieData_displayName_witness :
    (PieSlice.mk "ABCDEFGHIJKLMNO" 1 "ABCDEFGHIJKL...").displayName
        = ("ABCDEFGHIJKLMNO" : String).take 12 ++ "..." ∧
      (PieSlice.mk "ABCDEFGHIJ" 2 "ABCDEFGHIJ").displayName = "ABCDEFGHIJ" := by
  have h1 := pieData_displayName
    [OutcomeRow.mk "ABCDEFGHIJKLMNO" 1, OutcomeRow.mk "ABCDEFGHIJ" 2]
    (PieSlice.mk "ABCDEFGHIJKLMNO" 1 "ABCDEFGHIJKL...") (by decide)
  have h2 := pieData_displayName
    [OutcomeRow.mk "ABCDEFGHIJKLMNO" 1, OutcomeRow.mk "ABCDEFGHIJ" 2]
    (PieSlice.mk "ABCDEFGHIJ" 2 "ABCDEFGHIJ") (by decide)
  exact ⟨h1.2 (by decide), h2.1 (by decide)⟩

/-- A row of the daily aggregate as returned by the backend,
most-recent-first.  `call_date` is the raw date string; counts are
`Nat`, money and minutes `Rat`, standing for JavaScript numbers. -/
structure DailyRow where
  call_date : String
  call_count : Nat
  total_cost : Rat
  total_minutes : Rat
  deriving DecidableEq, Repr

/-- A point of the daily charts. -/
structure DailyPoint where
  date : String
  calls : Nat
  cost : Rat
  minutes : Rat
  deriving DecidableEq, Repr

/-- The per-row transform inside `dailyStats`: date formatting (the
external `formatInTimeZone` and `parseISO` composition is abstracted as
the argument `fmt`) and numeric coercion of count, cost and minutes
(identity on numbers). -/
def transformDaily (fmt : String → String) (item : DailyRow) : DailyPoint :=
  { date := fmt item.call_date
    calls := item.call_count
    cost := item.total_cost
    minutes := item.total_minutes }

/-- Embedding of the `dailyStats` transform of the charts component: map
the per-row transform over the fetched daily rows, then reverse the
result to chronological order. -/
def dailyStats (fmt : String → String) (daily : List DailyRow) : List DailyPoint :=
  (daily.map (transformDaily fmt)).reverse

/-- C8: the daily series is the element-wise transform of the fetched
rows in reversed order; the reversal preserves length and the multiset
of transformed entries, and any order that held descendingly of the
transformed input rows holds ascendingly of the output, so a
timestamp-descending input yields a chronologically ascending series. -/
theorem dailyStats_reverses (fmt : String → String) (rows : List DailyRow) :
    dailyStats fmt rows = (rows.map (transformDaily fmt)).reverse ∧
      (dailyStats fmt rows).length = rows.length ∧
      (dailyStats fmt rows).Perm (rows.map (transformDaily fmt)) ∧
      ∀ r : DailyPoint → DailyPoint → Prop,
        rows.Pairwise (fun a b => r (transformDaily fmt b) (transformDaily fmt a)) →
        (dailyStats fmt rows).Pairwise r := by
  refine ⟨rfl, by simp [dailyStats], List.reverse_perm _, fun r hr => ?_⟩
  rw [dailyStats, List.pairwise_reverse, List.pairwise_map]
  exact hr

/-- Witness for C8 on a two-row most-recent-first input: the series is
ascending in call count after reversal, and has the input's length. -/
theorem dailyStats_reverses_witness :
    (dailyStats id [DailyRow.mk "2024-01-02" 2 0 0, DailyRow.mk "2024-01-01" 1 0 0]).Pairwise
        (fun p q => p.calls ≤ q.calls) ∧
      (dailyStats id [DailyRow.mk "2024-01-02" 2 0 0, DailyRow.mk "2024-01-01" 1 0 0]).length = 2 := by
  have h := dailyStats_reverses id
    [DailyRow.mk "2024-01-02" 2 0 0, DailyRow.mk "2024-01-01" 1 0 0]
  refine ⟨h.2.2.2 (fun p q => p.calls ≤ q.calls) ?_, h.2.1⟩
  simp [List.pairwise_cons, transformDaily]

/-- The filter value: four independently optional predicates; `none`
means no constraint.  A user edit replaces the whole record. -/
structure Filters where
  outcome : Option String
  dateFrom : Option String
  dateTo : Option String
  customerNumber : Option String
  deriving DecidableEq, Repr

/-- The empty filter: the initial value and the value installed by the
Clear button (`clearFilters`). -/
def emptyFilters : Filters :=
  { outcome := none, dateFrom := none, dateTo := none, customerNumber := none }

/-- The four editable filter fields of the filter bar. -/
inductive FilterKey where
  | outcome
  | dateFrom
  | dateTo
  | customerNumber
  deriving DecidableEq, Repr

/-- `updateFilter` of the filter bar: replace one field of the filter
record, the empty string clearing the field (the source maps a falsy
value to `undefined`). -/
def setField (f : Filters) (k : FilterKey) (v : String) : Filters :=
  let val := if v = "" then none else some v
  match k with
  | .outcome => { f with outcome := val }
  | .dateFrom => { f with dateFrom := val }
  | .dateTo => { f with dateTo := val }
  | .customerNumber => { f with customerNumber := val }

/-- The state owned by the dashboard root component: the filter value
and the current page of the call table. -/
structure DashState where
  filters : Filters
  currentPage : Nat
  deriving DecidableEq, Repr

/-- The user-driven events of the dashboard root: a filter-bar field
edit, the Clear button, and a pagination click. -/
inductive Event where
  | updateFilter (k : FilterKey) (v : String)
  | clearFilters
  | pageChange (p : Nat)
  deriving DecidableEq, Repr

/-- Whether an event replaces the filter value (a field edit or the
Clear button). -/
def Event.isFilterChange : Event → Bool
  | .updateFilter _ _ => true
  | .clearFilters => true
  | .pageChange _ => false

/-- One transition of the dashboard root: a filter-bar event installs
the new filter record and the effect keyed on the filter value resets
the current page to 1; a pagination click installs the requested page. -/
def step (s : DashState) (e : Event) : DashState :=
  match e with
  | .updateFilter k v => { filters := setField s.filters k v, currentPage := 1 }
  | .clearFilters => { filters := emptyFilters, currentPage := 1 }
  | .pageChange p => { s with currentPage := p }

/-- The initial state of the dashboard root: empty filters, page 1. -/
def initState : DashState := { filters := emptyFilters, currentPage := 1 }

/-- The state reached from the initial state by a sequence of events. -/
def run (es : List Event) : DashState := es.foldl step initState

/-- C9: every transition whose event replaces the filter value (a field
edit or the Clear button) sets the current page to 1; consequently,
starting from the initial state, after any event sequence ending in a
filter change the reachable state satisfies
`1 ≤ currentPage ≤ max 1 totalPages` for every total page count. -/
theorem filterChange_resets_page (s : DashState) (es : List Event) (e : Event)
    (he : e.isFilterChange = true) :
    (step s e).currentPage = 1 ∧
      (run (es ++ [e])).currentPage = 1 ∧
      ∀ totalPages : Nat,
        1 ≤ (run (es ++ [e])).currentPage ∧
          (run (es ++ [e])).currentPage ≤ max 1 totalPages := by
  have hstep : ∀ s' : DashState, (step s' e).currentPage = 1 := by
    intro s'
    cases e with
    | updateFilter k v => rfl
    | clearFilters => rfl
    | pageChange p => simp [Event.isFilterChange] at he
  have hrun : (run (es ++ [e])).currentPage = 1 := by
    rw [run, List.foldl_append]
    exact hstep _
  refine ⟨hstep s, hrun, fun totalPages => ⟨le_of_eq hrun.symm, ?_⟩⟩
  rw [hrun]
  exact le_max_left 1 totalPages

/-- Witness for C9: after navigating to page 5 and then pressing Clear,
the page is back at 1 and within bounds for a 3-page table. -/
theorem filterChange_resets_page_witness :
    (step initState Event.clearFilters).currentPage = 1 ∧
      (run ([Event.pageChange 5] ++ [Event.clearFilters])).currentPage = 1 ∧
      1 ≤ (run ([Event.pageChange 5] ++ [Event.clearFilters])).currentPage ∧
      (run ([Event.pageChange 5] ++ [Event.clearFilters])).currentPage ≤ max 1 3 := by
  have h := filterChange_resets_page initState [Event.pageChange 5] Event.clearFilters rfl
  exact ⟨h.1, h.2.1, (h.2.2 3).1, (h.2.2 3).2⟩

/-- Embedding of the Total Minutes card of the overview component: the
fetched `total_minutes` value (a JavaScript number, modelled as `Rat`)
divided by 3, rounded up to an integer with the ceiling, and scaled
back by 3 for display. -/
def roundedUpMinutes (totalMinutes : Rat) : Int :=
  ⌈totalMinutes / 3⌉ * 3

/-- C10: for every non-negative fetched `total_minutes`, the displayed
Total Minutes value is a multiple of 3, is at least the fetched value,
and exceeds it by strictly less than 3. -/
theorem roundedUpMinutes_spec (m : Rat) (hm : 0 ≤ m) :
    (3 : Int) ∣ roundedUpMinutes m ∧
      m ≤ (roundedUpMinutes m : Rat) ∧
      (roundedUpMinutes m : Rat) < m + 3 := by
  refine ⟨⟨⌈m / 3⌉, mul_comm _ _⟩, ?_, ?_⟩
  · have h : (m / 3 : Rat) ≤ (⌈m / 3⌉ : Rat) := Int.le_ceil (m / 3)
    rw [roundedUpMinutes]
    push_cast
    linarith
  · have h : ((⌈m / 3⌉ : Rat)) < m / 3 + 1 := Int.ceil_lt_add_one (m / 3)
    rw [roundedUpMinutes]
    push_cast
    linarith

/-- Witness for C10 at `total_minutes = 4`: the displayed value (6) is
a multiple of 3, at least 4, and below 7. -/
theorem roundedUpMinutes_spec_witness :
    (0 : Rat) ≤ 4 ∧
      ((3 : Int) ∣ roundedUpMinutes 4 ∧
        (4 : Rat) ≤ (roundedUpMinutes 4 : Rat) ∧
        (roundedUpMinutes 4 : Rat) < 4 + 3) :=
  ⟨by norm_num, roundedUpMinutes_spec 4 (by norm_num)⟩

end CallCenter
